import Mathlib

/-!
Verification of the picoclaw prompt-cache and message-composition core
(pkg/agent context builder, pkg/skills loader).

Shallow embedding conventions:
- Go `time.Time` is modelled as `Nat`; `0` is the zero value `time.Time\x7b\x7d`,
  `time.Unix(1, 0)` (the sentinel) is `1`, and `t1.After(t2)` is `t2 < t1`.
  Real on-disk files never carry the zero `time.Time`, which is reflected by
  positivity hypotheses where it matters.
- The file system and process environment are a record of functions
  (`os.Stat`, `os.ReadFile`, `os.ReadDir`) plus the ordered entry list that
  `filepath.WalkDir` yields for the workspace skills directory.
- `filepath.Join` is modelled by `fjoin` (empty left component omitted,
  components glued with "/"); path cleaning is irrelevant to the claims.
- Fallible Go calls (`err == nil` checks) are `Option`.
-/

namespace PicoClaw

/-- Model of a `fs.DirEntry` passed to a `filepath.WalkDir` callback together
with the callback's `walkErr` argument: `errOk` is `walkErr == nil`. -/
structure WalkEntry where
  path : String
  isDir : Bool
  errOk : Bool
deriving DecidableEq, Repr

/-- Model of an `os.ReadDir` entry. -/
structure DirEntry where
  name : String
  isDir : Bool
deriving DecidableEq, Repr

/-- Metadata parsed from a SKILL.md frontmatter block (pkg/skills loader.go,
`SkillMetadata`). -/
structure SkillMetadata where
  name : String
  description : String
deriving DecidableEq, Repr

/-- Model of the file system and process environment as seen by the context
builder during one staleness check / rebuild.  `stat` returns the mtime when
the path exists; `skillsWalk` is the ordered list of entries produced by
`filepath.WalkDir` over the workspace skills directory.  `skillMeta` models
the result of `SkillsLoader.getSkillMetadata` (file read plus frontmatter
regex/JSON/YAML parsing, which involves only external library code);
`memoryContext` models the collaborator `MemoryStore.GetMemoryContext`
(spec section 6: freeform text or empty string), whose implementation is not
part of the sources under verification. -/
structure FileSys where
  stat : String → Option Nat
  read : String → Option String
  readDir : String → Option (List DirEntry)
  skillsWalk : List WalkEntry
  skillMeta : String → Option SkillMetadata
  wsAbs : String
  memoryContext : String

/-- Model of `filepath.Join` for two components. -/
def fjoin (a b : String) : String := if a = "" then b else a ++ "/" ++ b

/-- Model of `strings.Join` (and of `strings.Builder` accumulation of the
joined parts). -/
def strJoin (sep : String) : List String → String
  | [] => ""
  | [s] => s
  | s :: ss => s ++ sep ++ strJoin sep ss

/-- Mutable cache fields of `ContextBuilder` (context.go): the cached prompt,
the baseline max mtime `cachedAt`, and the per-path existence map
`existedAtCache` (`none` models the nil map). -/
structure CacheState where
  cachedSystemPrompt : String
  cachedAt : Nat
  existedAtCache : Option (String → Bool)

/-- Cache state of a freshly constructed `ContextBuilder` (Go zero values),
which is also the state produced by `InvalidateCache`. -/
def initState : CacheState := ⟨"", 0, none⟩

/-- The `SkillsLoader` struct (pkg/skills loader.go). -/
structure SkillsLoader where
  workspace : String
  workspaceSkills : String
  globalSkills : String
  builtinSkills : String
deriving DecidableEq, Repr

/-- Constructor `NewSkillsLoader`. -/
def NewSkillsLoader (workspace globalSkills builtinSkills : String) : SkillsLoader :=
  ⟨workspace, fjoin workspace "skills", globalSkills, builtinSkills⟩

/-- Immutable fields of `ContextBuilder` (context.go). -/
structure ContextBuilder where
  workspace : String
  skillsLoader : SkillsLoader
deriving DecidableEq, Repr

/-- Constructor `NewContextBuilder`; `wd` models `os.Getwd()` and
`globalConfigDir` models `getGlobalConfigDir()`. -/
def NewContextBuilder (workspace wd globalConfigDir : String) : ContextBuilder :=
  ⟨workspace, NewSkillsLoader workspace (fjoin globalConfigDir "skills") (fjoin wd "skills")⟩

/-- The tracked workspace source file paths (`ContextBuilder.sourcePaths`). -/
def sourcePaths (cb : ContextBuilder) : List String :=
  [fjoin cb.workspace "AGENTS.md",
   fjoin cb.workspace "SOUL.md",
   fjoin cb.workspace "USER.md",
   fjoin cb.workspace "IDENTITY.md",
   fjoin (fjoin cb.workspace "memory") "MEMORY.md"]

/-- The watched skills directory `filepath.Join(cb.workspace, "skills")`. -/
def skillsDirOf (cb : ContextBuilder) : String := fjoin cb.workspace "skills"

/-- All paths whose existence the baseline tracks: source files plus the
skills directory (local `allPaths` of `buildCacheBaseline`). -/
def allPaths (cb : ContextBuilder) : List String := sourcePaths cb ++ [skillsDirOf cb]

/-- The `cacheBaseline` struct: existence snapshot plus latest observed
mtime. -/
structure cacheBaseline where
  existed : String → Bool
  maxMtime : Nat

/-- One mtime-folding step shared by `buildCacheBaseline`: stat the path and
keep the later of the accumulator and the observed mtime
(`info.ModTime().After(maxMtime)` guarded update). -/
def foldMax (fs : FileSys) (acc : Nat) (p : String) : Nat :=
  match fs.stat p with
  | some mt => if acc < mt then mt else acc
  | none => acc

/-- The sentinel assigned when no tracked file exists: `time.Unix(1, 0)`,
i.e. epoch plus one second, coded as `1` (nonzero, below every real file
mtime). -/
def sentinelMtime : Nat := 1

/-- Translation of `ContextBuilder.buildCacheBaseline` (context.go): record
which tracked paths exist, fold the max mtime over tracked paths and over all
regular files found by walking the skills directory, and substitute the
sentinel when the running maximum was never raised above the zero value. -/
def buildCacheBaseline (cb : ContextBuilder) (fs : FileSys) : cacheBaseline :=
  let paths := allPaths cb
  let existed : String → Bool := fun p => decide (p ∈ paths) && (fs.stat p).isSome
  let m1 := paths.foldl (foldMax fs) 0
  let m2 := fs.skillsWalk.foldl
    (fun acc e => if e.errOk && !e.isDir then foldMax fs acc e.path else acc) m1
  let mx := if m2 = 0 then sentinelMtime else m2
  ⟨existed, mx⟩

/-- Translation of `ContextBuilder.fileChangedSince` (context.go): the
four-way existence/mtime staleness test for one tracked path, defensively
stale when the existence map was never initialized. -/
def fileChangedSince (st : CacheState) (fs : FileSys) (path : String) : Bool :=
  match st.existedAtCache with
  | none => true
  | some existed =>
    let existedBefore := existed path
    let statRes := fs.stat path
    let existsNow := statRes.isSome
    if existedBefore != existsNow then true
    else
      match statRes with
      | none => false
      | some mt => decide (st.cachedAt < mt)

/-- Translation of `skillFilesModifiedSince` (context.go): walk the skills
directory entries in order and return true at the first regular file whose
mtime is strictly after `t` (the Go code stops the walk there by returning
the sentinel `errWalkStop`); walk errors (including a missing directory)
contribute nothing. -/
def skillFilesModifiedSince (fs : FileSys) : List WalkEntry → Nat → Bool
  | [], _ => false
  | e :: rest, t =>
    if e.errOk && !e.isDir &&
        (match fs.stat e.path with
         | some mt => decide (t < mt)
         | none => false) then
      true
    else skillFilesModifiedSince fs rest t

/-- Translation of `ContextBuilder.sourceFilesChangedLocked` (context.go):
first-build check, tracked files, skills directory itself, then the recursive
walk, short-circuiting in that order. -/
def sourceFilesChangedLocked (cb : ContextBuilder) (st : CacheState) (fs : FileSys) : Bool :=
  if st.cachedAt = 0 then true
  else if (sourcePaths cb).any (fileChangedSince st fs) then true
  else if fileChangedSince st fs (skillsDirOf cb) then true
  else skillFilesModifiedSince fs fs.skillsWalk st.cachedAt

/-! Skill discovery and validation (pkg/skills loader.go). -/

/-- A discovered skill (loader.go `SkillInfo`). -/
structure SkillInfo where
  name : String
  path : String
  source : String
  description : String
deriving DecidableEq, Repr

/-- Character class `[a-zA-Z0-9]` of `namePattern`. -/
def isAlnumChar (c : Char) : Bool :=
  ('a' ≤ c && c ≤ 'z') || ('A' ≤ c && c ≤ 'Z') || ('0' ≤ c && c ≤ '9')

/-- Whether a name matches `namePattern`, the anchored regular expression
of one or more alphanumeric groups separated by single hyphens:
nonempty all-alphanumeric groups around every "-", at least one group. -/
def namePatternMatches (s : String) : Bool :=
  (s.splitOn "-").all fun g => g != "" && g.all isAlnumChar

/-- Value of `MaxNameLength` (loader.go). -/
def MaxNameLength : Nat := 64

/-- Value of `MaxDescriptionLength` (loader.go). -/
def MaxDescriptionLength : Nat := 1024

/-- Translation of `SkillInfo.validate` as a predicate: true exactly when the
Go method returns a nil error.  Go `len` on a string counts bytes, hence
`String.utf8ByteSize`. -/
def validateOk (info : SkillInfo) : Bool :=
  (info.name != "" && info.name.utf8ByteSize ≤ MaxNameLength
      && namePatternMatches info.name)
    && (info.description != "" && info.description.utf8ByteSize ≤ MaxDescriptionLength)

/-- Accumulator threaded through `ListSkills`' `addSkills` closure: the result
list, the `seen` name set, and the names for which `slog.Warn("invalid skill
...")` fired (the logging side effect, modelled as data). -/
structure SkillAcc where
  skills : List SkillInfo
  seen : List String
  warnings : List String
deriving DecidableEq, Repr

/-- Body of the per-entry loop of `addSkills` (loader.go `ListSkills`):
skip non-directories and directories without a stat-able SKILL.md, overlay
parsed metadata when present, drop (and warn about) entries failing
`validate`, then deduplicate by name. -/
def addSkillsStep (fs : FileSys) (dir source : String) (acc : SkillAcc) (d : DirEntry) :
    SkillAcc :=
  if !d.isDir then acc
  else
    let skillFile := fjoin (fjoin dir d.name) "SKILL.md"
    if !(fs.stat skillFile).isSome then acc
    else
      let info :=
        match fs.skillMeta skillFile with
        | some m => SkillInfo.mk m.name skillFile source m.description
        | none => SkillInfo.mk d.name skillFile source ""
      if !validateOk info then { acc with warnings := acc.warnings ++ [info.name] }
      else if info.name ∈ acc.seen then acc
      else { acc with skills := acc.skills ++ [info], seen := acc.seen ++ [info.name] }

/-- The `addSkills` closure of `ListSkills`: skip an empty directory argument
or a failing `os.ReadDir`, otherwise process the entries in order. -/
def addSkills (fs : FileSys) (dir source : String) (acc : SkillAcc) : SkillAcc :=
  if dir = "" then acc
  else
    match fs.readDir dir with
    | none => acc
    | some entries => entries.foldl (addSkillsStep fs dir source) acc

/-- Translation of `SkillsLoader.ListSkills` including its warning side
channel: workspace, then global, then builtin skills. -/
def ListSkillsAcc (fs : FileSys) (sl : SkillsLoader) : SkillAcc :=
  addSkills fs sl.builtinSkills "builtin"
    (addSkills fs sl.globalSkills "global"
      (addSkills fs sl.workspaceSkills "workspace" ⟨[], [], []⟩))

/-- Translation of `SkillsLoader.ListSkills` (the Go return value). -/
def ListSkills (fs : FileSys) (sl : SkillsLoader) : List SkillInfo :=
  (ListSkillsAcc fs sl).skills

/-- Translation of `escapeXML` (loader.go). -/
def escapeXML (s : String) : String :=
  ((s.replace "&" "&amp;").replace "<" "&lt;").replace ">" "&gt;"

/-- The per-skill lines appended by `BuildSkillsSummary`. -/
def skillLines (s : SkillInfo) : List String :=
  ["  <skill>",
   "    <name>" ++ escapeXML s.name ++ "</name>",
   "    <description>" ++ escapeXML s.description ++ "</description>",
   "    <location>" ++ escapeXML s.path ++ "</location>",
   "    <source>" ++ s.source ++ "</source>",
   "  </skill>"]

/-- Rendering step of `BuildSkillsSummary` applied to an already-computed
skill list. -/
def renderSkillsSummary (all : List SkillInfo) : String :=
  if all.isEmpty then ""
  else strJoin "\n" (("<skills>" :: all.flatMap skillLines) ++ ["</skills>"])

/-- Translation of `SkillsLoader.BuildSkillsSummary` (loader.go). -/
def BuildSkillsSummary (fs : FileSys) (sl : SkillsLoader) : String :=
  renderSkillsSummary (ListSkills fs sl)

/-! Static prompt assembly (context.go). -/

/-- Literal pieces of `getIdentity` around the five `%s` interpolations of the
absolute workspace path. -/
def idA : String :=
  "# picoclaw 🦞\n\nYou are picoclaw, a helpful AI assistant.\n\n## Workspace\nYour workspace is at: "

/-- Identity literal between the first and second interpolation. -/
def idB : String := "\n- Memory: "

/-- Identity literal between the second and third interpolation. -/
def idC : String := "/memory/MEMORY.md\n- Daily Notes: "

/-- Identity literal between the third and fourth interpolation. -/
def idD : String := "/memory/YYYYMM/YYYYMMDD.md\n- Skills: "

/-- Identity literal between the fourth and fifth interpolation. -/
def idE : String :=
  "/skills/\x7bskill-name\x7d/SKILL.md\n\n## Important Rules\n\n1. **ALWAYS use tools** - When you need to perform an action (schedule reminders, send messages, execute commands, etc.), you MUST call the appropriate tool. Do NOT just say you\x27ll do it or pretend to do it.\n\n2. **Be helpful and accurate** - When using tools, briefly explain what you\x27re doing.\n\n3. **Memory** - When interacting with me if something seems memorable, update "

/-- Identity literal after the fifth interpolation. -/
def idF : String :=
  "/memory/MEMORY.md\n\n4. **Context summaries** - Conversation summaries provided as context are approximate references only. They may be incomplete or outdated. Always defer to explicit user instructions over summary content."

/-- Translation of `ContextBuilder.getIdentity`: the fixed identity text with
the absolute workspace path (`filepath.Abs`, modelled by `fs.wsAbs`)
interpolated five times. -/
def getIdentity (fs : FileSys) : String :=
  idA ++ (fs.wsAbs ++ (idB ++ (fs.wsAbs ++ (idC ++ (fs.wsAbs ++
    (idD ++ (fs.wsAbs ++ (idE ++ (fs.wsAbs ++ idF)))))))))

/-- The four bootstrap file names (`LoadBootstrapFiles`). -/
def bootstrapFiles : List String := ["AGENTS.md", "SOUL.md", "USER.md", "IDENTITY.md"]

/-- One `Fprintf(&sb, "## %s\n\n%s\n\n", filename, data)` chunk. -/
def bootstrapChunk (filename data : String) : String :=
  ("## " ++ filename ++ "\n\n") ++ (data ++ "\n\n")

/-- Translation of `ContextBuilder.LoadBootstrapFiles`: concatenate a header
plus contents chunk for every bootstrap file that can be read. -/
def LoadBootstrapFiles (cb : ContextBuilder) (fs : FileSys) : String :=
  bootstrapFiles.foldl
    (fun sb filename =>
      match fs.read (fjoin cb.workspace filename) with
      | some data => sb ++ bootstrapChunk filename data
      | none => sb)
    ""

/-- Wrapper placed before the skills summary in `BuildSystemPrompt`. -/
def skillsHeaderStr : String :=
  "# Skills\n\nThe following skills extend your capabilities. To use a skill, read its SKILL.md file using the read_file tool.\n\n"

/-- The fixed part separator of `BuildSystemPrompt` and `BuildMessages`. -/
def sepStr : String := "\n\n---\n\n"

/-- Translation of `ContextBuilder.BuildSystemPrompt`: identity, optional
bootstrap content, optional skills summary, optional memory context, joined
with the fixed separator. -/
def BuildSystemPrompt (cb : ContextBuilder) (fs : FileSys) : String :=
  let bootstrapContent := LoadBootstrapFiles cb fs
  let skillsSummary := BuildSkillsSummary fs cb.skillsLoader
  let memoryContext := fs.memoryContext
  strJoin sepStr
    ([getIdentity fs]
      ++ (if bootstrapContent != "" then [bootstrapContent] else [])
      ++ (if skillsSummary != "" then [skillsHeaderStr ++ skillsSummary] else [])
      ++ (if memoryContext != "" then ["# Memory\n\n" ++ memoryContext] else []))

/-- Translation of `ContextBuilder.BuildSystemPromptWithCache` as a state
transformer: serve the cached prompt when it is nonempty and no source file
changed, otherwise capture a fresh baseline, rebuild, and install the new
entry.  (The Go read-lock fast path and write-lock double check collapse to
one test in this sequential model; both evaluate the same predicate.) -/
def BuildSystemPromptWithCache (cb : ContextBuilder) (st : CacheState) (fs : FileSys) :
    CacheState × String :=
  if st.cachedSystemPrompt != "" && !sourceFilesChangedLocked cb st fs then
    (st, st.cachedSystemPrompt)
  else
    let baseline := buildCacheBaseline cb fs
    let prompt := BuildSystemPrompt cb fs
    (⟨prompt, baseline.maxMtime, some baseline.existed⟩, prompt)

/-- Translation of `ContextBuilder.InvalidateCache`: unconditionally reset
the three cache fields to their zero values.  The function does not consult
the file system at all (it takes no `FileSys`). -/
def InvalidateCache (_st : CacheState) : CacheState := initState

/-! Message model (pkg/providers protocoltypes; the struct definition lives
outside the sources under src/, so the fields are modelled from their uses in
context.go and from spec section 3: role, flat text content, structured
content blocks with a caching hint, tool calls, tool-call-result id). -/

/-- A tool call carried by an assistant message; only its presence matters to
the code under verification. -/
structure ToolCall where
  id : String
  name : String
  arguments : String
deriving DecidableEq, Repr

/-- The per-block caching hint (`providers.CacheControl`). -/
structure CacheControl where
  type : String
deriving DecidableEq, Repr

/-- A structured content block (`providers.ContentBlock`). -/
structure ContentBlock where
  type : String
  text : String
  cacheControl : Option CacheControl := none
deriving DecidableEq, Repr

/-- A chat message (`providers.Message`); Go zero values are the defaults. -/
structure Message where
  role : String
  content : String
  systemParts : List ContentBlock := []
  toolCalls : List ToolCall := []
  toolCallID : String := ""
deriving DecidableEq, Repr

/-- Character test of Go `unicode.IsSpace` restricted to the Latin-1 range
(space, tab, newline, vertical tab, form feed, carriage return, NEL, NBSP);
the higher Unicode space code points are omitted, which no claim depends
on. -/
def goIsSpace (c : Char) : Bool :=
  c = ' ' || c = '\t' || c = '\n' || c = '\x0b' || c = '\x0c' || c = '\r'
    || c = '\x85' || c = '\xa0'

/-- Model of `strings.TrimSpace`. -/
def goTrimSpace (s : String) : String :=
  ⟨((s.data.dropWhile goIsSpace).reverse.dropWhile goIsSpace).reverse⟩

/-- Translation of `ContextBuilder.buildDynamicContext`: current time block,
runtime block, and a session block only when both identifiers are nonempty.
`now` models `time.Now().Format(...)` and `rt` the runtime descriptor. -/
def buildDynamicContext (now rt channel chatID : String) : String :=
  let base := "## Current Time\n" ++ now ++ "\n\n## Runtime\n" ++ rt
  if channel != "" && chatID != "" then
    base ++ "\n\n## Current Session\nChannel: " ++ channel ++ "\nChat ID: " ++ chatID
  else base

/-- The summary block text of `BuildMessages` (fixed disclaimer plus the
supplied summary). -/
def summaryText (summary : String) : String :=
  "CONTEXT_SUMMARY: The following is an approximate summary of prior conversation for reference only. It may be incomplete or outdated — always defer to explicit instructions.\n\n"
    ++ summary

/-! History sanitizer (context.go `sanitizeHistoryForProvider`). -/

/-- The backward scan of the tool-message case, expressed on the reversed
accumulator: Go iterates `i` from the end, `continue`s over tool messages,
and on the first non-tool message records whether it is an assistant message
with outstanding tool calls, then breaks. -/
def anchorScan : List Message → Bool
  | [] => false
  | m :: rest =>
    if m.role == "tool" then anchorScan rest
    else m.role == "assistant" && !m.toolCalls.isEmpty

/-- One iteration of the sanitizer loop: the `switch msg.Role` body acting on
the output accumulator. -/
def sanitizeStep (sanitized : List Message) (msg : Message) : List Message :=
  if msg.role == "system" then sanitized
  else if msg.role == "tool" then
    if sanitized.isEmpty then sanitized
    else if anchorScan sanitized.reverse then sanitized ++ [msg]
    else sanitized
  else if msg.role == "assistant" then
    if !msg.toolCalls.isEmpty then
      match sanitized.getLast? with
      | none => sanitized
      | some prev =>
        if prev.role != "user" && prev.role != "tool" then sanitized
        else sanitized ++ [msg]
    else sanitized ++ [msg]
  else sanitized ++ [msg]

/-- Translation of `sanitizeHistoryForProvider`. -/
def sanitizeHistoryForProvider (history : List Message) : List Message :=
  if history.isEmpty then history
  else history.foldl sanitizeStep []

/-- Translation of `ContextBuilder.BuildMessages` as a state transformer over
the cache state: obtain the (cached) static prompt, compute the dynamic
context, compose the single system message with its structured blocks, then
append the sanitized history and, when nonempty after trimming, the current
user message.  `now` and `rt` model the per-request clock and runtime
descriptor; `media` is accepted and unused exactly as in the source. -/
def BuildMessages (cb : ContextBuilder) (st : CacheState) (fs : FileSys)
    (now rt : String) (history : List Message) (summary currentMessage : String)
    (media : List String) (channel chatID : String) : CacheState × List Message :=
  let built := BuildSystemPromptWithCache cb st fs
  let staticPrompt := built.2
  let dynamicCtx := buildDynamicContext now rt channel chatID
  let stringParts :=
    [staticPrompt, dynamicCtx]
      ++ (if summary != "" then [summaryText summary] else [])
  let contentBlocks : List ContentBlock :=
    [⟨"text", staticPrompt, some ⟨"ephemeral"⟩⟩, ⟨"text", dynamicCtx, none⟩]
      ++ (if summary != "" then [⟨"text", summaryText summary, none⟩] else [])
  let fullSystemPrompt := strJoin sepStr stringParts
  let history := sanitizeHistoryForProvider history
  let messages : List Message :=
    [⟨"system", fullSystemPrompt, contentBlocks, [], ""⟩] ++ history
  let messages :=
    if goTrimSpace currentMessage != "" then
      messages ++ [⟨"user", currentMessage, [], [], ""⟩]
    else messages
  (built.1, messages)

/-- Stand-in for the Go `[]map[string]any` tool-call argument of
`AddAssistantMessage`, which the function never inspects. -/
structure GoToolCallMap where
  entries : List (String × String)
deriving DecidableEq, Repr

/-- Translation of `ContextBuilder.AddToolResult`. -/
def AddToolResult (messages : List Message) (toolCallID _toolName result : String) :
    List Message :=
  messages ++ [⟨"tool", result, [], [], toolCallID⟩]

/-- Translation of `ContextBuilder.AddAssistantMessage`: append one assistant
message carrying only the content; the `toolCalls` parameter is never read. -/
def AddAssistantMessage (messages : List Message) (content : String)
    (_toolCalls : List GoToolCallMap) : List Message :=
  messages ++ [⟨"assistant", content, [], [], ""⟩]

/-! Spec-side definitions.  Each follows the wording of a claim (not the Go
control flow) and is compared with the corresponding source translation by a
refinement theorem. -/

/-- Spec wording of the per-path staleness check (claim C2): stale when the
existence map was never initialized; stale on an existed-before/exists-now
mismatch; not stale when absent both times; otherwise stale exactly when the
current mtime is strictly after the baseline maximum. -/
def fileChangedSinceSpec (st : CacheState) (fs : FileSys) (path : String) : Bool :=
  match st.existedAtCache with
  | none => true
  | some existed =>
    match existed path, fs.stat path with
    | true, none => true
    | false, some _ => true
    | false, none => false
    | true, some mt => decide (st.cachedAt < mt)

/-- Spec wording of the tool-message keep rule (claim C5): scan the
accumulator backward, skip over tool messages, and keep exactly when the
first non-tool message found is an assistant message carrying at least one
tool call. -/
def specKeepTool (acc : List Message) : Bool :=
  match acc.reverse.dropWhile (fun m => m.role == "tool") with
  | [] => false
  | prev :: _ => prev.role == "assistant" && !prev.toolCalls.isEmpty

/-- Spec wording of one sanitizer iteration (claim C5): drop system messages;
drop a tool message on an empty accumulator or without a matching tool-call
anchor; drop an assistant tool-call turn on an empty accumulator or when the
last accumulated message is neither a user nor a tool message; keep
everything else. -/
def sanitizeStepSpec (acc : List Message) (msg : Message) : List Message :=
  if msg.role == "system" then acc
  else if msg.role == "tool" then
    if acc.isEmpty then acc
    else if specKeepTool acc then acc ++ [msg] else acc
  else if msg.role == "assistant" && !msg.toolCalls.isEmpty then
    if acc.isEmpty then acc
    else
      match acc.getLast? with
      | some prev => if prev.role == "user" || prev.role == "tool" then acc ++ [msg] else acc
      | none => acc
  else acc ++ [msg]

/-- Spec-side candidate extraction for one directory entry (claim C9): a
subdirectory with a stat-able SKILL.md, with metadata overlaid when
present. -/
def candidateOf (fs : FileSys) (dir source : String) (d : DirEntry) : Option SkillInfo :=
  if d.isDir then
    let skillFile := fjoin (fjoin dir d.name) "SKILL.md"
    if (fs.stat skillFile).isSome then
      some (match fs.skillMeta skillFile with
            | some m => SkillInfo.mk m.name skillFile source m.description
            | none => SkillInfo.mk d.name skillFile source "")
    else none
  else none

/-- Spec-side plain enumeration of the candidate skills of one directory
(claim C9), before any validation or deduplication. -/
def discovered (fs : FileSys) (dir source : String) : List SkillInfo :=
  if dir = "" then []
  else
    match fs.readDir dir with
    | none => []
    | some entries => entries.filterMap (candidateOf fs dir source)

/-- Spec-side enumeration over the three priority-ordered skill
directories. -/
def allDiscovered (fs : FileSys) (sl : SkillsLoader) : List SkillInfo :=
  discovered fs sl.workspaceSkills "workspace"
    ++ discovered fs sl.globalSkills "global"
    ++ discovered fs sl.builtinSkills "builtin"

/-- First-occurrence deduplication by name, given the names already taken. -/
def dedupByName (seen : List String) : List SkillInfo → List SkillInfo
  | [] => []
  | i :: rest =>
    if i.name ∈ seen then dedupByName seen rest
    else i :: dedupByName (seen ++ [i.name]) rest

/-- The mtimes that `buildCacheBaseline` actually observes: stats of the
tracked paths followed by stats of the regular files reached by the skills
walk (claim C3). -/
def observedMtimes (cb : ContextBuilder) (fs : FileSys) : List Nat :=
  (allPaths cb).filterMap fs.stat
    ++ fs.skillsWalk.filterMap
        (fun e => if e.errOk && !e.isDir then fs.stat e.path else none)

/-- Results of a given number of successive `BuildSystemPromptWithCache`
calls, threading the cache state (claim C6). -/
def promptCalls (cb : ContextBuilder) (fs : FileSys) : Nat → CacheState → List String
  | 0, _ => []
  | n + 1, st =>
    let r := BuildSystemPromptWithCache cb st fs
    r.2 :: promptCalls cb fs n r.1

/-- The dynamic time marker: header of the "Current Time" block that
`buildDynamicContext` emits and the cached static prompt must never
contain. -/
def markerL : List Char := "## Current Time".data

/-- Containment of the marker in a string, as contiguous-infix containment of
character lists. -/
def hasMarker (s : String) : Prop := markerL <:+: s.data

instance (s : String) : Decidable (hasMarker s) := by
  unfold hasMarker; infer_instance

/-- Hit condition of the skills walk (claim C4): a successfully visited
regular file whose mtime is strictly after the baseline. -/
def walkHit (fs : FileSys) (t : Nat) (e : WalkEntry) : Bool :=
  e.errOk && !e.isDir &&
    (match fs.stat e.path with
     | some mt => decide (t < mt)
     | none => false)

/-! Concrete instances used by witness theorems. -/

/-- An empty workspace: every stat, read, and readDir fails and the skills
walk yields nothing. -/
def fsEmpty : FileSys :=
  ⟨fun _ => none, fun _ => none, fun _ => none, [], fun _ => none, "/ws", ""⟩

/-- A workspace with exactly one tracked file (AGENTS.md, mtime 5). -/
def fsOne : FileSys :=
  ⟨fun p => if p = "/ws/AGENTS.md" then some 5 else none,
   fun _ => none, fun _ => none, [], fun _ => none, "/ws", ""⟩

/-- Example context builder over workspace "/ws". -/
def cbEx : ContextBuilder := NewContextBuilder "/ws" "/wd" "/home/u/.picoclaw"

/-- A cache state that never captured a baseline (zero last-build time). -/
def st0 : CacheState := ⟨"p", 0, none⟩

/-- A successfully visited regular-file walk entry. -/
def wEx : WalkEntry := ⟨"/ws/AGENTS.md", false, true⟩

/-! Helper lemmas. -/

theorem anchorScan_eq_dropWhile (l : List Message) :
    anchorScan l
      = (match l.dropWhile (fun m => m.role == "tool") with
         | [] => false
         | prev :: _ => prev.role == "assistant" && !prev.toolCalls.isEmpty) := by
  induction l with
  | nil => rfl
  | cons m rest ih =>
    cases h : (m.role == "tool") with
    | true => simpa [anchorScan, h, List.dropWhile_cons] using ih
    | false => simp [anchorScan, h, List.dropWhile_cons]

theorem sanitizeStep_eq_spec : sanitizeStep = sanitizeStepSpec := by
  funext acc msg
  unfold sanitizeStep sanitizeStepSpec
  by_cases h1 : (msg.role == "system") = true
  · simp [h1]
  · by_cases h2 : (msg.role == "tool") = true
    · have hks : anchorScan acc.reverse = specKeepTool acc := by
        rw [anchorScan_eq_dropWhile]; rfl
      simp [h1, h2, hks]
    · by_cases h3 : (msg.role == "assistant") = true
      · by_cases h4 : msg.toolCalls.isEmpty = true
        · simp [h1, h2, h3, h4]
        · cases hL : acc.getLast? with
          | none =>
            have hnil : acc = [] := List.getLast?_eq_none_iff.mp hL
            simp [h1, h2, h3, h4, hnil]
          | some prev =>
            have hne : acc ≠ [] := by
              intro hc; rw [hc] at hL; exact Option.noConfusion hL
            have hemp : acc.isEmpty = false := by
              cases acc with
              | nil => exact absurd rfl hne
              | cons a l => rfl
            by_cases hu : prev.role = "user"
            · simp [h1, h2, h3, h4, hL, hemp, hu]
            · by_cases ht : prev.role = "tool"
              · simp [h1, h2, h3, h4, hL, hemp, hu, ht]
              · simp [h1, h2, h3, h4, hL, hemp, hu, ht]
      · simp [h1, h2, h3]

/-- Claim C5: the history sanitizer applies, in input order, exactly the drop
rules stated in the spec — system messages dropped, tool messages dropped
unless the backward scan over the accumulator (skipping tool messages) finds
an assistant message with outstanding tool calls, assistant tool-call turns
dropped on an empty accumulator or after a predecessor that is neither a user
nor a tool message, and every other message kept. -/
theorem sanitizeHistory_rules (history : List Message) :
    sanitizeHistoryForProvider history = history.foldl sanitizeStepSpec [] := by
  unfold sanitizeHistoryForProvider
  rw [sanitizeStep_eq_spec]
  cases history with
  | nil => rfl
  | cons a l => simp [List.isEmpty_cons]

/-- Claim C2: the per-path staleness check implements exactly the four-way
existence/mtime logic of the spec, treating an uninitialized existence map as
stale. -/
theorem fileChangedSince_fourWay (st : CacheState) (fs : FileSys) (path : String) :
    fileChangedSince st fs path = fileChangedSinceSpec st fs path := by
  unfold fileChangedSince fileChangedSinceSpec
  cases hex : st.existedAtCache with
  | none => rfl
  | some existed =>
    cases he : existed path <;> cases hs : fs.stat path <;> simp [he, hs]

/-- Claim C10: AddAssistantMessage appends exactly one assistant message with
the given content and no tool calls, leaving the input list unchanged and
ignoring the toolCalls parameter entirely. -/
theorem addAssistantMessage_ignores_toolCalls (messages : List Message)
    (content : String) (toolCalls : List GoToolCallMap) :
    AddAssistantMessage messages content toolCalls
        = messages ++ [⟨"assistant", content, [], [], ""⟩]
      ∧ ∀ tc2 : List GoToolCallMap,
          AddAssistantMessage messages content toolCalls
            = AddAssistantMessage messages content tc2 :=
  ⟨rfl, fun _ => rfl⟩

theorem sanitizeStep_cases (acc : List Message) (msg : Message) :
    sanitizeStep acc msg = acc
      ∨ (msg.role ≠ "system" ∧ sanitizeStep acc msg = acc ++ [msg]) := by
  unfold sanitizeStep
  by_cases h1 : (msg.role == "system") = true
  · simp [h1]
  · have hne : msg.role ≠ "system" := by simpa using h1
    simp only [h1]
    repeat' split
    all_goals simp [hne]

theorem sanitize_foldl_no_system (history : List Message) (acc : List Message)
    (hacc : ∀ m ∈ acc, m.role ≠ "system") :
    ∀ m ∈ history.foldl sanitizeStep acc, m.role ≠ "system" := by
  induction history generalizing acc with
  | nil => simpa using hacc
  | cons msg rest ih =>
    intro m hm
    simp only [List.foldl_cons] at hm
    refine ih (sanitizeStep acc msg) ?_ m hm
    intro m' hm'
    rcases sanitizeStep_cases acc msg with h | ⟨hr, h⟩
    · rw [h] at hm'; exact hacc m' hm'
    · rw [h] at hm'
      rcases List.mem_append.mp hm' with h' | h'
      · exact hacc m' h'
      · rw [List.mem_singleton.mp h']; exact hr

theorem sanitize_no_system (history : List Message) :
    ∀ m ∈ sanitizeHistoryForProvider history, m.role ≠ "system" := by
  unfold sanitizeHistoryForProvider
  by_cases h : history.isEmpty = true
  · have hnil : history = [] := by
      cases history with
      | nil => rfl
      | cons a l => exact absurd h (by simp)
    simp [hnil]
  · simp only [h, Bool.false_eq_true, if_false]
    exact sanitize_foldl_no_system history [] (by simp)

/-- Claim C1: every message list produced by BuildMessages contains exactly
one system message, that message is first, and when the current message is
nonempty after trimming the last message has role user — for every history
(including histories containing system messages), summary, media list,
channel, and chat id. -/
theorem buildMessages_single_system (cb : ContextBuilder) (st : CacheState) (fs : FileSys)
    (now rt : String) (history : List Message) (summary currentMessage : String)
    (media : List String) (channel chatID : String) :
    ((BuildMessages cb st fs now rt history summary currentMessage media channel chatID).2.filter
        (fun m => m.role == "system")).length = 1
      ∧ ((BuildMessages cb st fs now rt history summary currentMessage media channel chatID).2.head?.map
          Message.role) = some "system"
      ∧ (goTrimSpace currentMessage ≠ "" →
          ((BuildMessages cb st fs now rt history summary currentMessage media channel chatID).2.getLast?.map
              Message.role) = some "user") := by
  have hsan := sanitize_no_system history
  have hfil : (sanitizeHistoryForProvider history).filter (fun m => m.role == "system") = [] :=
    List.filter_eq_nil_iff.mpr (by intro a ha; simpa using hsan a ha)
  unfold BuildMessages
  by_cases htrim : goTrimSpace currentMessage ≠ ""
  · have hb : (goTrimSpace currentMessage != "") = true := by simpa using htrim
    refine ⟨?_, ?_, fun _ => ?_⟩
    · simp [hb, List.filter_append, List.filter_cons, hfil]
    · simp [hb]
    · simp only [hb, if_true]
      rw [List.getLast?_concat]
      rfl
  · have hb : (goTrimSpace currentMessage != "") = false := by
      simpa using not_not.mp htrim
    refine ⟨?_, ?_, fun hc => absurd hc htrim⟩
    · simp [hb, List.filter_append, List.filter_cons, hfil]
    · simp [hb]

/-- Claim C8: the system message produced by BuildMessages carries structured
blocks in which the static (cached) block is the only one with a cache
control hint (of type "ephemeral"), the dynamic and optional summary blocks
carry none, the summary block is present exactly when the supplied summary is
nonempty, and the flat text is the same block texts joined with the fixed
separator. -/
theorem buildMessages_system_blocks (cb : ContextBuilder) (st : CacheState) (fs : FileSys)
    (now rt : String) (history : List Message) (summary currentMessage : String)
    (media : List String) (channel chatID : String) :
    let staticPrompt := (BuildSystemPromptWithCache cb st fs).2
    let dyn := buildDynamicContext now rt channel chatID
    let blocks : List ContentBlock :=
      [⟨"text", staticPrompt, some ⟨"ephemeral"⟩⟩, ⟨"text", dyn, none⟩]
        ++ (if summary != "" then [⟨"text", summaryText summary, none⟩] else [])
    (BuildMessages cb st fs now rt history summary currentMessage media channel chatID).2.head?
        = some ⟨"system", strJoin sepStr (blocks.map ContentBlock.text), blocks, [], ""⟩
      ∧ blocks.filter (fun b => b.cacheControl.isSome)
          = [⟨"text", staticPrompt, some ⟨"ephemeral"⟩⟩]
      ∧ blocks.map ContentBlock.text
          = [staticPrompt, dyn] ++ (if summary != "" then [summaryText summary] else []) := by
  intro staticPrompt dyn blocks
  refine ⟨?_, ?_, ?_⟩
  · unfold BuildMessages
    by_cases hs : (summary != "") = true
    · simp only [blocks, staticPrompt, dyn, hs, if_true]
      split <;> simp [List.map_append]
    · have hs' : (summary != "") = false := by simpa using hs
      simp only [blocks, staticPrompt, dyn, hs', if_false]
      split <;> simp [List.map_append]
  · by_cases hs : (summary != "") = true
    · simp [blocks, hs, List.filter_append]
    · have hs' : (summary != "") = false := by simpa using hs
      simp [blocks, hs', List.filter_append]
  · by_cases hs : (summary != "") = true
    · simp [blocks, hs, List.map_append]
    · have hs' : (summary != "") = false := by simpa using hs
      simp [blocks, hs', List.map_append]

/-- Witness for claim C1 at a concrete input with a nonempty trimmed current
message. -/
theorem buildMessages_single_system_witness :
    ((BuildMessages cbEx initState fsEmpty "now" "rt" [] "" "hi" [] "ch" "id").2.filter
        (fun m => m.role == "system")).length = 1
      ∧ ((BuildMessages cbEx initState fsEmpty "now" "rt" [] "" "hi" [] "ch" "id").2.head?.map
          Message.role) = some "system"
      ∧ ((BuildMessages cbEx initState fsEmpty "now" "rt" [] "" "hi" [] "ch" "id").2.getLast?.map
          Message.role) = some "user" := by
  have h := buildMessages_single_system cbEx initState fsEmpty "now" "rt" [] "" "hi" [] "ch" "id"
  exact ⟨h.1, h.2.1, h.2.2 (by decide)⟩

/-- Claim C7: InvalidateCache unconditionally resets the cache entry to its
empty and zero state without consulting the file system, and a rebuild after
invalidation with an unchanged file system returns the same text as the call
before the invalidation. -/
theorem invalidateCache_reset (cb : ContextBuilder) (st : CacheState) (fs : FileSys) :
    InvalidateCache st = initState
      ∧ (InvalidateCache st).cachedSystemPrompt = ""
      ∧ (InvalidateCache st).cachedAt = 0
      ∧ (InvalidateCache st).existedAtCache = none
      ∧ (st.cachedSystemPrompt = "" →
          (BuildSystemPromptWithCache cb
              (InvalidateCache (BuildSystemPromptWithCache cb st fs).1) fs).2
            = (BuildSystemPromptWithCache cb st fs).2) := by
  have h2 : ∀ st' : CacheState, st'.cachedSystemPrompt = "" →
      (BuildSystemPromptWithCache cb st' fs).2 = BuildSystemPrompt cb fs := by
    intro st' h'
    unfold BuildSystemPromptWithCache
    rw [h']
    simp
  refine ⟨rfl, rfl, rfl, rfl, ?_⟩
  intro h
  rw [h2 _ rfl, h2 st h]

/-- Witness for claim C7 starting from the fresh cache state over the empty
workspace. -/
theorem invalidateCache_reset_witness :
    InvalidateCache initState = initState
      ∧ (BuildSystemPromptWithCache cbEx
            (InvalidateCache (BuildSystemPromptWithCache cbEx initState fsEmpty).1) fsEmpty).2
          = (BuildSystemPromptWithCache cbEx initState fsEmpty).2 := by
  have h := invalidateCache_reset cbEx initState fsEmpty
  exact ⟨h.1, h.2.2.2.2 rfl⟩

theorem foldMax_eq_max (fs : FileSys) (acc : Nat) (p : String) :
    foldMax fs acc p
      = match fs.stat p with
        | some mt => max acc mt
        | none => acc := by
  unfold foldMax
  cases fs.stat p with
  | none => rfl
  | some mt =>
    show (if acc < mt then mt else acc) = max acc mt
    rw [Nat.max_def]
    split <;> split <;> omega

theorem foldl_foldMax (fs : FileSys) (l : List String) (a : Nat) :
    l.foldl (foldMax fs) a = (l.filterMap fs.stat).foldl max a := by
  induction l generalizing a with
  | nil => rfl
  | cons p rest ih =>
    simp only [List.foldl_cons, List.filterMap_cons]
    cases h : fs.stat p with
    | none => rw [foldMax_eq_max]; simp only [h]; exact ih a
    | some mt => rw [foldMax_eq_max]; simp only [h, List.foldl_cons]; exact ih (max a mt)

theorem foldl_walkMax (fs : FileSys) (l : List WalkEntry) (a : Nat) :
    l.foldl (fun acc e => if e.errOk && !e.isDir then foldMax fs acc e.path else acc) a
      = (l.filterMap
          (fun e => if e.errOk && !e.isDir then fs.stat e.path else none)).foldl max a := by
  induction l generalizing a with
  | nil => rfl
  | cons e rest ih =>
    simp only [List.foldl_cons, List.filterMap_cons]
    by_cases hc : (e.errOk && !e.isDir) = true
    · cases h : fs.stat e.path with
      | none => simp only [hc, if_true, h]; rw [foldMax_eq_max]; simp only [h]; exact ih a
      | some mt =>
        simp only [hc, if_true, h, List.foldl_cons]
        rw [foldMax_eq_max]; simp only [h]; exact ih (max a mt)
    · have hc' : (e.errOk && !e.isDir) = false := by simpa using hc
      simp only [hc', if_false, Bool.false_eq_true]
      exact ih a

theorem init_le_foldl_max (l : List Nat) (a : Nat) : a ≤ l.foldl max a := by
  induction l generalizing a with
  | nil => exact Nat.le_refl a
  | cons x rest ih => exact le_trans (Nat.le_max_left a x) (ih (max a x))

theorem le_foldl_max (l : List Nat) (a b : Nat) (hb : b ∈ l) : b ≤ l.foldl max a := by
  induction l generalizing a with
  | nil => cases hb
  | cons x rest ih =>
    rcases List.mem_cons.mp hb with rfl | h
    · exact le_trans (Nat.le_max_right a b) (init_le_foldl_max rest (max a b))
    · exact ih (max a x) h

theorem buildCacheBaseline_fold (cb : ContextBuilder) (fs : FileSys) :
    (buildCacheBaseline cb fs).maxMtime
      = (if (observedMtimes cb fs).foldl max 0 = 0 then sentinelMtime
         else (observedMtimes cb fs).foldl max 0) := by
  unfold buildCacheBaseline observedMtimes
  simp only [foldl_foldMax, foldl_walkMax, List.foldl_append]

/-- Claim C3: when no watched path exists, the baseline records the fixed
nonzero sentinel time.Unix(1,0) as its maximum mtime and existed=false for
every path; when mtimes are observed (every real file mtime being nonzero in
the Go time model), the maximum mtime is the maximum of the observed
mtimes. -/
theorem buildCacheBaseline_sentinel (cb : ContextBuilder) (fs : FileSys) :
    ((∀ p ∈ allPaths cb, fs.stat p = none) →
      (∀ e ∈ fs.skillsWalk, e.errOk = false) →
        (buildCacheBaseline cb fs).maxMtime = sentinelMtime
          ∧ sentinelMtime ≠ 0
          ∧ ∀ p, (buildCacheBaseline cb fs).existed p = false)
      ∧ (observedMtimes cb fs ≠ [] →
         (∀ mt ∈ observedMtimes cb fs, 0 < mt) →
          (buildCacheBaseline cb fs).maxMtime = (observedMtimes cb fs).foldl max 0) := by
  constructor
  · intro hstat hwalk
    have hobs : observedMtimes cb fs = [] := by
      unfold observedMtimes
      rw [List.append_eq_nil]
      constructor
      · rw [List.filterMap_eq_nil_iff]
        intro p hp; rw [hstat p hp]
      · rw [List.filterMap_eq_nil_iff]
        intro e he; simp [hwalk e he]
    refine ⟨?_, by decide, ?_⟩
    · rw [buildCacheBaseline_fold, hobs]; rfl
    · intro p
      unfold buildCacheBaseline
      by_cases hp : p ∈ allPaths cb
      · simp [hp, hstat p hp]
      · simp [hp]
  · intro hne hpos
    rw [buildCacheBaseline_fold]
    have hnz : (observedMtimes cb fs).foldl max 0 ≠ 0 := by
      obtain ⟨x, hx⟩ := List.exists_mem_of_ne_nil _ hne
      have h1 : 0 < x := hpos x hx
      have h2 : x ≤ (observedMtimes cb fs).foldl max 0 := le_foldl_max _ 0 x hx
      omega
    simp [hnz]

/-- Witness for claim C3: the empty workspace yields the sentinel, and a
workspace with one tracked file (mtime 5) yields the observed maximum. -/
theorem buildCacheBaseline_sentinel_witness :
    ((buildCacheBaseline cbEx fsEmpty).maxMtime = sentinelMtime
        ∧ sentinelMtime ≠ 0
        ∧ ∀ p, (buildCacheBaseline cbEx fsEmpty).existed p = false)
      ∧ (buildCacheBaseline cbEx fsOne).maxMtime
          = (observedMtimes cbEx fsOne).foldl max 0 := by
  constructor
  · exact (buildCacheBaseline_sentinel cbEx fsEmpty).1 (fun p _ => rfl) (fun e he => absurd he (List.not_mem_nil e))
  · exact (buildCacheBaseline_sentinel cbEx fsOne).2 (by decide) (by decide)

theorem skillFiles_any (fs : FileSys) (l : List WalkEntry) (t : Nat) :
    skillFilesModifiedSince fs l t = l.any (walkHit fs t) := by
  induction l with
  | nil => rfl
  | cons e rest ih =>
    have hstep : skillFilesModifiedSince fs (e :: rest) t
        = (if walkHit fs t e = true then true else skillFilesModifiedSince fs rest t) := rfl
    rw [hstep]
    cases hw : walkHit fs t e <;> simp [hw, ih]

/-- Claim C4: the staleness detector is the ordered short-circuit disjunction
of the zero-baseline test, the per-file checks, the skills-directory check,
and the recursive walk; the walk reports stale exactly when some successfully
visited regular file is newer than the baseline, returns at the first such
hit without examining later entries, and reports no change when every walk
entry failed (as for a missing skills directory). -/
theorem sourceFilesChanged_order (cb : ContextBuilder) (st : CacheState) (fs : FileSys) :
    (sourceFilesChangedLocked cb st fs
        = (decide (st.cachedAt = 0) || (sourcePaths cb).any (fileChangedSince st fs)
            || fileChangedSince st fs (skillsDirOf cb)
            || skillFilesModifiedSince fs fs.skillsWalk st.cachedAt))
      ∧ (st.cachedAt = 0 → sourceFilesChangedLocked cb st fs = true)
      ∧ (∀ l t, skillFilesModifiedSince fs l t = l.any (walkHit fs t))
      ∧ (∀ e rest t, walkHit fs t e = true → skillFilesModifiedSince fs (e :: rest) t = true)
      ∧ ((∀ e ∈ fs.skillsWalk, e.errOk = false) →
          skillFilesModifiedSince fs fs.skillsWalk st.cachedAt = false) := by
  refine ⟨?_, ?_, skillFiles_any fs, ?_, ?_⟩
  · unfold sourceFilesChangedLocked
    by_cases h0 : st.cachedAt = 0
    · simp [h0]
    · cases h1 : (sourcePaths cb).any (fileChangedSince st fs) <;>
        cases h2 : fileChangedSince st fs (skillsDirOf cb) <;>
          simp [h0, h1, h2]
  · intro h; unfold sourceFilesChangedLocked; simp [h]
  · intro e rest t hw
    rw [skillFiles_any]
    simp [List.any_cons, hw]
  · intro hw
    rw [skillFiles_any]
    rw [List.any_eq_false]
    intro e he
    unfold walkHit
    simp [hw e he]

/-- Witness for claim C4: a zero baseline is stale, a newer walked file stops
the walk immediately, and an all-error walk (missing directory) reports no
change. -/
theorem sourceFilesChanged_order_witness :
    sourceFilesChangedLocked cbEx st0 fsEmpty = true
      ∧ skillFilesModifiedSince fsOne (wEx :: []) 3 = true
      ∧ skillFilesModifiedSince fsEmpty fsEmpty.skillsWalk st0.cachedAt = false := by
  have h := sourceFilesChanged_order cbEx st0 fsEmpty
  have h2 := sourceFilesChanged_order cbEx st0 fsOne
  exact ⟨h.2.1 rfl, h2.2.2.2.1 wEx [] 3 (by decide),
    h.2.2.2.2 (fun e he => absurd he (List.not_mem_nil e))⟩

theorem addSkillsStep_eq (fs : FileSys) (dir source : String) (acc : SkillAcc)
    (d : DirEntry) :
    addSkillsStep fs dir source acc d
      = match candidateOf fs dir source d with
        | none => acc
        | some info =>
          if !validateOk info then { acc with warnings := acc.warnings ++ [info.name] }
          else if info.name ∈ acc.seen then acc
          else { acc with skills := acc.skills ++ [info], seen := acc.seen ++ [info.name] } := by
  unfold addSkillsStep candidateOf
  by_cases hd : d.isDir = true
  · by_cases hs : (fs.stat (fjoin (fjoin dir d.name) "SKILL.md")).isSome = true
    · simp only [hd, hs]
      cases fs.skillMeta (fjoin (fjoin dir d.name) "SKILL.md") <;> simp
    · have hs' : (fs.stat (fjoin (fjoin dir d.name) "SKILL.md")).isSome = false := by
        simpa using hs
      simp [hd, hs']
  · have hd' : d.isDir = false := by simpa using hd
    simp [hd']

theorem foldl_addSkillsStep (fs : FileSys) (dir source : String)
    (entries : List DirEntry) (acc : SkillAcc) :
    entries.foldl (addSkillsStep fs dir source) acc
      = ⟨acc.skills
            ++ dedupByName acc.seen
                ((entries.filterMap (candidateOf fs dir source)).filter validateOk),
         acc.seen
            ++ (dedupByName acc.seen
                ((entries.filterMap (candidateOf fs dir source)).filter validateOk)).map
                  SkillInfo.name,
         acc.warnings
            ++ ((entries.filterMap (candidateOf fs dir source)).filter
                  (fun i => !validateOk i)).map SkillInfo.name⟩ := by
  induction entries generalizing acc with
  | nil => simp [dedupByName]
  | cons d rest ih =>
    simp only [List.foldl_cons, List.filterMap_cons, addSkillsStep_eq]
    cases hc : candidateOf fs dir source d with
    | none => exact ih acc
    | some info =>
      by_cases hv : validateOk info = true
      · simp only [hv, Bool.not_true, Bool.false_eq_true, if_false, List.filter_cons, if_pos hv]
        by_cases hseen : info.name ∈ acc.seen
        · simp only [if_pos hseen]
          rw [ih acc]
          simp [dedupByName, hseen, hv]
        · simp only [if_neg hseen]
          rw [ih]
          simp only [dedupByName, if_neg hseen]
          simp [List.append_assoc]
      · have hv' : validateOk info = false := by simpa using hv
        simp only [hv', Bool.not_false, if_true, List.filter_cons, hv', Bool.false_eq_true,
          if_false]
        rw [ih]
        simp [List.append_assoc]

theorem addSkills_eq (fs : FileSys) (dir source : String) (acc : SkillAcc) :
    addSkills fs dir source acc
      = ⟨acc.skills ++ dedupByName acc.seen ((discovered fs dir source).filter validateOk),
         acc.seen
            ++ (dedupByName acc.seen
                ((discovered fs dir source).filter validateOk)).map SkillInfo.name,
         acc.warnings
            ++ ((discovered fs dir source).filter (fun i => !validateOk i)).map
                SkillInfo.name⟩ := by
  unfold addSkills discovered
  by_cases hdir : dir = ""
  · simp [hdir, dedupByName]
  · simp only [hdir, if_neg, if_false]
    cases h : fs.readDir dir with
    | none => simp [dedupByName]
    | some entries => exact foldl_addSkillsStep fs dir source entries acc

theorem dedupByName_append (seen : List String) (A B : List SkillInfo) :
    dedupByName seen (A ++ B)
      = dedupByName seen A
          ++ dedupByName (seen ++ (dedupByName seen A).map SkillInfo.name) B := by
  induction A generalizing seen with
  | nil => simp [dedupByName]
  | cons i A ih =>
    by_cases hm : i.name ∈ seen
    · simp only [List.cons_append, dedupByName, if_pos hm]
      exact ih seen
    · simp only [List.cons_append, dedupByName, if_neg hm]
      simp only [List.append_eq]
      rw [ih (seen ++ [i.name])]
      simp [List.append_assoc]

theorem dedupByName_subset (seen : List String) (l : List SkillInfo) :
    ∀ i ∈ dedupByName seen l, i ∈ l := by
  induction l generalizing seen with
  | nil => intro i h; cases h
  | cons x rest ih =>
    intro i h
    unfold dedupByName at h
    by_cases hm : x.name ∈ seen
    · rw [if_pos hm] at h
      exact List.mem_cons_of_mem x (ih seen i h)
    · rw [if_neg hm] at h
      rcases List.mem_cons.mp h with rfl | h'
      · exact List.mem_cons_self i rest
      · exact List.mem_cons_of_mem x (ih (seen ++ [x.name]) i h')

/-- Claim C9: ListSkills equals first-occurrence deduplication of the
validly-discovered skills — every candidate failing validate (empty or
overlong name or description, or a name outside the alphanumeric-hyphen
pattern) is excluded while the remaining valid skills are kept, each excluded
candidate is warned about (the warning channel of the model), every returned
skill passes validate, the skills summary is rendered from exactly this
filtered list, and the function is total (no error is returned). -/
theorem listSkills_excludes_invalid (fs : FileSys) (sl : SkillsLoader) :
    ListSkills fs sl = dedupByName [] ((allDiscovered fs sl).filter validateOk)
      ∧ (∀ info ∈ ListSkills fs sl, validateOk info = true)
      ∧ (ListSkillsAcc fs sl).warnings
          = ((allDiscovered fs sl).filter (fun i => !validateOk i)).map SkillInfo.name
      ∧ BuildSkillsSummary fs sl = renderSkillsSummary (ListSkills fs sl) := by
  have hmain : ListSkills fs sl = dedupByName [] ((allDiscovered fs sl).filter validateOk)
      ∧ (ListSkillsAcc fs sl).warnings
          = ((allDiscovered fs sl).filter (fun i => !validateOk i)).map SkillInfo.name := by
    unfold ListSkills ListSkillsAcc allDiscovered
    rw [addSkills_eq, addSkills_eq, addSkills_eq]
    constructor
    · simp [List.filter_append, dedupByName_append, List.append_assoc]
    · simp [List.filter_append, List.map_append, List.append_assoc]
  refine ⟨hmain.1, ?_, hmain.2, rfl⟩
  intro info hinfo
  rw [hmain.1] at hinfo
  have hmem := dedupByName_subset [] _ info hinfo
  exact List.of_mem_filter hmem

theorem sub_split {α : Type} {m a b : List α} (h : m <:+: a ++ b) :
    m <:+: a ∨ m <:+: b
      ∨ ∃ k, 0 < k ∧ k < m.length ∧ m.take k <:+ a ∧ m.drop k <+: b := by
  obtain ⟨s, t, hst⟩ := h
  have hst' : s ++ (m ++ t) = a ++ b := by
    rw [← List.append_assoc]; exact hst
  rcases List.append_eq_append_iff.mp hst' with ⟨a', ha, hmt⟩ | ⟨c', _, hb⟩
  · rcases List.append_eq_append_iff.mp hmt with ⟨x, hax, _⟩ | ⟨y, hm, hbt⟩
    · refine Or.inl ⟨s, x, ?_⟩
      rw [ha, hax, List.append_assoc]
    · by_cases hy : y = []
      · subst hy
        rw [List.append_nil] at hm
        refine Or.inl ⟨s, [], ?_⟩
        rw [ha, ← hm, List.append_nil]
      · by_cases ha' : a' = []
        · subst ha'
          rw [List.nil_append] at hm
          refine Or.inr (Or.inl ⟨[], t, ?_⟩)
          rw [hbt, ← hm, List.nil_append]
        · refine Or.inr (Or.inr ⟨a'.length, ?_, ?_, ?_, ?_⟩)
          · exact List.length_pos.mpr ha'
          · rw [hm, List.length_append]
            have : 0 < y.length := List.length_pos.mpr hy
            omega
          · rw [hm, List.take_left]
            exact ⟨s, ha.symm⟩
          · rw [hm, List.drop_left]
            exact ⟨t, hbt.symm⟩
  · refine Or.inr (Or.inl ⟨c', t, ?_⟩)
    rw [hb, List.append_assoc]

theorem noSub_append_right {m a b : List Char} (ha : ¬ m <:+: a) (hb : ¬ m <:+: b)
    {c : Char} (hc : c ∉ m) (hlast : a.getLast? = some c) :
    ¬ m <:+: a ++ b := by
  intro h
  rcases sub_split h with h' | h' | ⟨k, hk0, hkm, hta, _⟩
  · exact ha h'
  · exact hb h'
  · obtain ⟨u, hu⟩ := hta
    have htk : m.take k ≠ [] := by
      intro hnil
      have hlen : (m.take k).length = k := by
        rw [List.length_take]; omega
      rw [hnil] at hlen
      simp at hlen
      omega
    have hlast2 : (u ++ m.take k).getLast? = (m.take k).getLast? := by
      rw [List.getLast?_append]
      cases hg : (m.take k).getLast? with
      | none => exact absurd (List.getLast?_eq_none_iff.mp hg) htk
      | some z => rfl
    rw [hu, hlast] at hlast2
    have hcm : c ∈ m.take k := List.mem_of_getLast?_eq_some hlast2.symm
    exact hc (List.mem_of_mem_take hcm)

theorem noSub_append_left {m a b : List Char} (ha : ¬ m <:+: a) (hb : ¬ m <:+: b)
    {c : Char} (hc : c ∉ m) (hhead : b.head? = some c) :
    ¬ m <:+: a ++ b := by
  intro h
  rcases sub_split h with h' | h' | ⟨k, hk0, hkm, _, hdb⟩
  · exact ha h'
  · exact hb h'
  · obtain ⟨v, hv⟩ := hdb
    have hdk : m.drop k ≠ [] := by
      intro hnil
      have hlen : (m.drop k).length = m.length - k := List.length_drop k m
      rw [hnil] at hlen
      simp at hlen
      omega
    have hh2 : (m.drop k ++ v).head? = (m.drop k).head? := by
      rw [List.head?_append]
      cases hg : (m.drop k).head? with
      | none => exact absurd (List.head?_eq_none_iff.mp hg) hdk
      | some z => rfl
    rw [hv, hhead] at hh2
    have hcm : c ∈ m.drop k := by
      cases hd : m.drop k with
      | nil => exact absurd hd hdk
      | cons x xs =>
        rw [hd] at hh2
        have h3 : some c = some x := hh2
        rw [Option.some.injEq] at h3
        rw [h3]
        exact List.mem_cons_self x xs
    exact hc (List.drop_subset k m hcm)

theorem noSub_append_clear {m a b : List Char} (ha : ¬ m <:+: a) (hb : ¬ m <:+: b)
    (hnb : ∀ k, k < m.length → 0 < k → ¬ (m.take k <:+ a)) :
    ¬ m <:+: a ++ b := by
  intro h
  rcases sub_split h with h' | h' | ⟨k, hk0, hkm, hta, _⟩
  · exact ha h'
  · exact hb h'
  · exact hnb k hkm hk0 hta

set_option maxRecDepth 10000

theorem strHead_append (x y : String) {c : Char} (h : x.data.head? = some c) :
    (x ++ y).data.head? = some c := by
  rw [String.data_append, List.head?_append, h]
  rfl

theorem strLast_append (x y : String) {c : Char} (h : y.data.getLast? = some c) :
    (x ++ y).data.getLast? = some c := by
  rw [String.data_append, List.getLast?_append, h]
  rfl

theorem noMarker_append_right {x y : String} (hx : ¬ hasMarker x) (hy : ¬ hasMarker y)
    {c : Char} (hc : c ∉ markerL) (hlast : x.data.getLast? = some c) :
    ¬ hasMarker (x ++ y) := by
  unfold hasMarker at hx hy ⊢
  rw [String.data_append]
  exact noSub_append_right hx hy hc hlast

theorem noMarker_append_left {x y : String} (hx : ¬ hasMarker x) (hy : ¬ hasMarker y)
    {c : Char} (hc : c ∉ markerL) (hhead : y.data.head? = some c) :
    ¬ hasMarker (x ++ y) := by
  unfold hasMarker at hx hy ⊢
  rw [String.data_append]
  exact noSub_append_left hx hy hc hhead

theorem noMarker_append_clear {x y : String} (hx : ¬ hasMarker x) (hy : ¬ hasMarker y)
    (hnb : ∀ k, k < markerL.length → 0 < k → ¬ (markerL.take k <:+ x.data)) :
    ¬ hasMarker (x ++ y) := by
  unfold hasMarker at hx hy ⊢
  rw [String.data_append]
  exact noSub_append_clear hx hy hnb

theorem noMarker_getIdentity (fs : FileSys) (hw : ¬ hasMarker fs.wsAbs) :
    ¬ hasMarker (getIdentity fs) := by
  have h1 : ¬ hasMarker (fs.wsAbs ++ idF) :=
    noMarker_append_left hw (by decide) (show ('/' : Char) ∉ markerL by decide) (by decide)
  have h2 : ¬ hasMarker (idE ++ (fs.wsAbs ++ idF)) :=
    noMarker_append_clear (by decide) h1 (by decide)
  have h3 : ¬ hasMarker (fs.wsAbs ++ (idE ++ (fs.wsAbs ++ idF))) :=
    noMarker_append_left hw h2 (show ('/' : Char) ∉ markerL by decide)
      (strHead_append idE _ (by decide))
  have h4 : ¬ hasMarker (idD ++ (fs.wsAbs ++ (idE ++ (fs.wsAbs ++ idF)))) :=
    noMarker_append_clear (by decide) h3 (by decide)
  have h5 : ¬ hasMarker (fs.wsAbs ++ (idD ++ (fs.wsAbs ++ (idE ++ (fs.wsAbs ++ idF))))) :=
    noMarker_append_left hw h4 (show ('/' : Char) ∉ markerL by decide)
      (strHead_append idD _ (by decide))
  have h6 : ¬ hasMarker (idC ++ (fs.wsAbs ++ (idD ++ (fs.wsAbs ++ (idE ++ (fs.wsAbs ++ idF)))))) :=
    noMarker_append_clear (by decide) h5 (by decide)
  have h7 : ¬ hasMarker (fs.wsAbs
      ++ (idC ++ (fs.wsAbs ++ (idD ++ (fs.wsAbs ++ (idE ++ (fs.wsAbs ++ idF))))))) :=
    noMarker_append_left hw h6 (show ('/' : Char) ∉ markerL by decide)
      (strHead_append idC _ (by decide))
  have h8 : ¬ hasMarker (idB ++ (fs.wsAbs
      ++ (idC ++ (fs.wsAbs ++ (idD ++ (fs.wsAbs ++ (idE ++ (fs.wsAbs ++ idF)))))))) :=
    noMarker_append_clear (by decide) h7 (by decide)
  have h9 : ¬ hasMarker (fs.wsAbs ++ (idB ++ (fs.wsAbs
      ++ (idC ++ (fs.wsAbs ++ (idD ++ (fs.wsAbs ++ (idE ++ (fs.wsAbs ++ idF))))))))) :=
    noMarker_append_left hw h8 (show ('\n' : Char) ∉ markerL by decide)
      (strHead_append idB _ (by decide))
  exact noMarker_append_clear (by decide) h9 (by decide)

theorem chunk_noMarker (f data : String)
    (hhead : ¬ hasMarker ("## " ++ f ++ "\n\n")) (hdata : ¬ hasMarker data) :
    ¬ hasMarker (bootstrapChunk f data) := by
  unfold bootstrapChunk
  have hd2 : ¬ hasMarker (data ++ "\n\n") :=
    noMarker_append_left hdata (by decide) (show ('\n' : Char) ∉ markerL by decide) (by decide)
  exact noMarker_append_right hhead hd2 (show ('\n' : Char) ∉ markerL by decide)
    (strLast_append _ _ (by decide))

theorem chunk_last (f data : String) :
    (bootstrapChunk f data).data.getLast? = some '\n' := by
  unfold bootstrapChunk
  exact strLast_append _ _ (strLast_append _ _ (by decide))

theorem bootstrap_fold_ok (cb : ContextBuilder) (fs : FileSys) (files : List String)
    (sb : String)
    (hfiles : ∀ f ∈ files,
        ¬ hasMarker ("## " ++ f ++ "\n\n")
          ∧ ("## " ++ f ++ "\n\n").data.getLast? = some '\n')
    (hreads : ∀ f ∈ files, ∀ c, fs.read (fjoin cb.workspace f) = some c → ¬ hasMarker c)
    (hsb : ¬ hasMarker sb) (hsbL : sb = "" ∨ sb.data.getLast? = some '\n') :
    ¬ hasMarker (files.foldl
        (fun sb filename =>
          match fs.read (fjoin cb.workspace filename) with
          | some data => sb ++ bootstrapChunk filename data
          | none => sb) sb)
      ∧ ((files.foldl
            (fun sb filename =>
              match fs.read (fjoin cb.workspace filename) with
              | some data => sb ++ bootstrapChunk filename data
              | none => sb) sb) = ""
          ∨ (files.foldl
              (fun sb filename =>
                match fs.read (fjoin cb.workspace filename) with
                | some data => sb ++ bootstrapChunk filename data
                | none => sb) sb).data.getLast? = some '\n') := by
  induction files generalizing sb with
  | nil => exact ⟨hsb, hsbL⟩
  | cons f rest ih =>
    simp only [List.foldl_cons]
    cases hr : fs.read (fjoin cb.workspace f) with
    | none =>
      exact ih sb (fun g hg => hfiles g (List.mem_cons_of_mem f hg))
        (fun g hg => hreads g (List.mem_cons_of_mem f hg)) hsb hsbL
    | some data =>
      have hdata : ¬ hasMarker data := hreads f (List.mem_cons_self f rest) data hr
      have hchunk : ¬ hasMarker (bootstrapChunk f data) :=
        chunk_noMarker f data (hfiles f (List.mem_cons_self f rest)).1 hdata
      have hsb' : ¬ hasMarker (sb ++ bootstrapChunk f data) := by
        rcases hsbL with rfl | hL
        · rw [String.empty_append]
          exact hchunk
        · exact noMarker_append_right hsb hchunk
            (show ('\n' : Char) ∉ markerL by decide) hL
      have hsbL' : (sb ++ bootstrapChunk f data).data.getLast? = some '\n' :=
        strLast_append _ _ (chunk_last f data)
      exact ih (sb ++ bootstrapChunk f data)
        (fun g hg => hfiles g (List.mem_cons_of_mem f hg))
        (fun g hg => hreads g (List.mem_cons_of_mem f hg)) hsb' (Or.inr hsbL')

theorem loadBootstrap_ok (cb : ContextBuilder) (fs : FileSys)
    (hreads : ∀ f ∈ bootstrapFiles, ∀ c,
        fs.read (fjoin cb.workspace f) = some c → ¬ hasMarker c) :
    ¬ hasMarker (LoadBootstrapFiles cb fs)
      ∧ (LoadBootstrapFiles cb fs = ""
          ∨ (LoadBootstrapFiles cb fs).data.getLast? = some '\n') := by
  unfold LoadBootstrapFiles
  refine bootstrap_fold_ok cb fs bootstrapFiles "" ?_ hreads (by decide) (Or.inl rfl)
  intro f hf
  have hf' : f = "AGENTS.md" ∨ f = "SOUL.md" ∨ f = "USER.md" ∨ f = "IDENTITY.md" := by
    simpa [bootstrapFiles] using hf
  rcases hf' with rfl | rfl | rfl | rfl
  · exact ⟨by decide, by decide⟩
  · exact ⟨by decide, by decide⟩
  · exact ⟨by decide, by decide⟩
  · exact ⟨by decide, by decide⟩

theorem noMarker_strJoin : ∀ (parts : List String),
    (∀ p ∈ parts, ¬ hasMarker p) → ¬ hasMarker (strJoin sepStr parts)
  | [], _ => by decide
  | [p], h => h p (List.mem_cons_self p [])
  | p :: q :: qs, h => by
    have hp : ¬ hasMarker p := h p (List.mem_cons_self _ _)
    have hrest : ¬ hasMarker (strJoin sepStr (q :: qs)) :=
      noMarker_strJoin (q :: qs) (fun x hx => h x (List.mem_cons_of_mem p hx))
    have hps : ¬ hasMarker (p ++ sepStr) :=
      noMarker_append_left hp (by decide) (show ('\n' : Char) ∉ markerL by decide) (by decide)
    have hlast : (p ++ sepStr).data.getLast? = some '\n' :=
      strLast_append _ _ (by decide)
    exact noMarker_append_right hps hrest (show ('\n' : Char) ∉ markerL by decide) hlast

theorem mem_iteList {c : Prop} [Decidable c] {x p : String}
    (h : p ∈ (if c then [x] else ([] : List String))) : p = x := by
  by_cases hc : c
  · rw [if_pos hc] at h
    exact List.mem_singleton.mp h
  · rw [if_neg hc] at h
    cases h

theorem noMarker_BuildSystemPrompt (cb : ContextBuilder) (fs : FileSys)
    (hw : ¬ hasMarker fs.wsAbs)
    (hreads : ∀ f ∈ bootstrapFiles, ∀ c,
        fs.read (fjoin cb.workspace f) = some c → ¬ hasMarker c)
    (hsk : ¬ hasMarker (BuildSkillsSummary fs cb.skillsLoader))
    (hmem : ¬ hasMarker fs.memoryContext) :
    ¬ hasMarker (BuildSystemPrompt cb fs) := by
  have hboot := loadBootstrap_ok cb fs hreads
  unfold BuildSystemPrompt
  apply noMarker_strJoin
  intro p hp
  rcases List.mem_append.mp hp with hp' | hp'
  · rcases List.mem_append.mp hp' with hp'' | hp''
    · rcases List.mem_append.mp hp'' with hid | hbse
      · rw [List.mem_singleton.mp hid]
        exact noMarker_getIdentity fs hw
      · rw [mem_iteList hbse]
        exact hboot.1
    · rw [mem_iteList hp'']
      exact noMarker_append_right (by decide) hsk
        (show ('\n' : Char) ∉ markerL by decide) (by decide)
  · rw [mem_iteList hp']
    exact noMarker_append_right (by decide) hmem
      (show ('\n' : Char) ∉ markerL by decide) (by decide)

theorem promptCalls_stable (cb : ContextBuilder) (fs : FileSys) :
    ∀ (n : Nat) (st : CacheState),
      (st.cachedSystemPrompt = "" ∨ st.cachedSystemPrompt = BuildSystemPrompt cb fs) →
      ∀ s ∈ promptCalls cb fs n st, s = BuildSystemPrompt cb fs := by
  intro n
  induction n with
  | zero => intro st _ s hs; cases hs
  | succ n ih =>
    intro st hst s hs
    unfold promptCalls at hs
    by_cases hcond : (st.cachedSystemPrompt != ""
        && !sourceFilesChangedLocked cb st fs) = true
    · have hr : BuildSystemPromptWithCache cb st fs = (st, st.cachedSystemPrompt) := by
        unfold BuildSystemPromptWithCache
        rw [if_pos hcond]
      rw [hr] at hs
      rcases List.mem_cons.mp hs with rfl | h'
      · rcases hst with h0 | h0
        · exfalso
          rw [h0] at hcond
          simp at hcond
        · exact h0
      · exact ih st hst s h'
    · have hr : BuildSystemPromptWithCache cb st fs
          = (⟨BuildSystemPrompt cb fs, (buildCacheBaseline cb fs).maxMtime,
              some (buildCacheBaseline cb fs).existed⟩, BuildSystemPrompt cb fs) := by
        unfold BuildSystemPromptWithCache
        rw [if_neg hcond]
      rw [hr] at hs
      rcases List.mem_cons.mp hs with rfl | h'
      · rfl
      · exact ih _ (Or.inr rfl) s h'

/-- Claim C6: with an unchanged file system, every call in any sequence of
cached-prompt calls from the fresh state returns the same string — the static
prompt — and that string does not contain the dynamic time marker
"## Current Time", provided none of the external inputs (absolute workspace
path, bootstrap file contents, skills summary, memory context) smuggles the
marker in. -/
theorem cachedPrompt_stable_markerfree (cb : ContextBuilder) (fs : FileSys) (n : Nat) :
    (∀ s ∈ promptCalls cb fs n initState, s = BuildSystemPrompt cb fs)
      ∧ ((¬ hasMarker fs.wsAbs) →
         (∀ f ∈ bootstrapFiles, ∀ c,
             fs.read (fjoin cb.workspace f) = some c → ¬ hasMarker c) →
         (¬ hasMarker (BuildSkillsSummary fs cb.skillsLoader)) →
         (¬ hasMarker fs.memoryContext) →
         ¬ hasMarker (BuildSystemPrompt cb fs)) := by
  constructor
  · exact promptCalls_stable cb fs n initState (Or.inl rfl)
  · intro hw hreads hsk hmem
    exact noMarker_BuildSystemPrompt cb fs hw hreads hsk hmem

/-- Witness for claim C6: two calls over the empty workspace, whose static
prompt is marker-free. -/
theorem cachedPrompt_stable_markerfree_witness :
    (∀ s ∈ promptCalls cbEx fsEmpty 2 initState, s = BuildSystemPrompt cbEx fsEmpty)
      ∧ ¬ hasMarker (BuildSystemPrompt cbEx fsEmpty) := by
  have h := cachedPrompt_stable_markerfree cbEx fsEmpty 2
  refine ⟨h.1, h.2 (by decide) ?_ (by decide) (by decide)⟩
  intro f hf c hc
  exact absurd hc (by simp [fsEmpty])

end PicoClaw
